import Mathlib

/-!
# A shallow embedding of the miniasm front end

This file embeds the miniasm lexer (`lexer.Lexer`, `lexer/tokenizer`), the
token model (`pkg/token`) and the parser (`pkg/parser`, `pkg/parser/mini`,
default mini-parsers) in Lean, and proves properties of the embedding.

Conventions of the embedding:
* Go byte buffers are `List Char` (all inputs considered are ASCII, where Go
  bytes and runes coincide); Go's byte value `0` used as an EOF sentinel is
  `Char.ofNat 0`.
* `token.Position` has Go type `int` for all three fields.  `Line` and
  `Column` are embedded as `Int`; the byte offset `Position` is embedded as
  `Nat` (every mutation of it in the source is guarded — `Advance` by the
  EOF check and `Backward` by the SOF check — so it never leaves `[0, len]`
  and Go's `int` arithmetic on it coincides with `Nat` arithmetic).
* The lexer owns a single `token.Position` object allocated in `newBase`;
  every `context.Position()` call returns a pointer to that one object.
  A token therefore stores either that shared, still-mutating object
  (`PosRef.shared`, what `token.New(lit, kind, c.Position())` does) or a
  freshly allocated copy (`PosRef.copy`, what the unit tests' matchers do).
  Reading a token's position after the run resolves `shared` to the final
  state of the cell.
* Go's `(value, noMatch, error)` tokenizer results become `TokStep`; a Go
  runtime panic (nil dereference, index out of range) is the explicit
  `crash` outcome; running out of fuel in a loop the source performs
  without a bound is the explicit `diverge` outcome.
* The `on` busy flag and mutex of both engines only guard concurrent
  reconfiguration and never influence a single-threaded run, so they are
  not part of the state.
-/

namespace Miniasm

/-- `token.Kind` is a Go string type; the closed set of values used by the
program appears below. -/
abbrev Kind := String

def kIdentifier : Kind := "identifier"
def kNumber : Kind := "number"
def kString : Kind := "string"
def kChar : Kind := "char"
def kSeparator : Kind := "separator"
def kSpecialFunction : Kind := "special-function"

/-- `token.Separators` from `pkg/token/token.go`. -/
def separators : List String := [";", ",", "[", "]", "\x7b", "\x7d", "(", ")", "^"]

/-- `token.SpecialFunctions` from `pkg/token/token.go`. -/
def specialFunctions : List String := ["at"]

/-- The EOF sentinel byte `0` returned by `context.Current`. -/
def nul : Char := Char.ofNat 0

/-- Go `unicode.IsLetter(rune(b))` for a single byte `b` (Latin-1 range):
ASCII letters plus the Latin-1 letters `ª µ º À–Ö Ø–ö ø–ÿ`. -/
def goIsLetter (c : Char) : Bool :=
  let n := c.toNat
  (65 ≤ n && n ≤ 90) || (97 ≤ n && n ≤ 122) ||
    n == 0xAA || n == 0xB5 || n == 0xBA ||
    (0xC0 ≤ n && n ≤ 0xD6) || (0xD8 ≤ n && n ≤ 0xF6) || (0xF8 ≤ n && n ≤ 0xFF)

/-- Go `unicode.IsDigit(rune(b))` for a single byte: only ASCII `0`–`9`
(the Latin-1 superscripts are category `No`, not `Nd`). -/
def goIsDigit (c : Char) : Bool :=
  let n := c.toNat
  48 ≤ n && n ≤ 57

/-- Go `unicode.IsSpace(rune(b))` for a single byte: tab, newline, vertical
tab, form feed, carriage return, space, next line (U+0085) and no-break
space (U+00A0). -/
def goIsSpace (c : Char) : Bool :=
  let n := c.toNat
  n == 9 || n == 10 || n == 11 || n == 12 || n == 13 || n == 32 ||
    n == 0x85 || n == 0xA0

/-- `token.IsIdentifier` from `pkg/token/token.go`: length in `[1, 255]`,
not a separator or special-function name, no leading digit, every character
a letter, digit or `_`.  (Go measures length in bytes and ranges over
runes; on the ASCII inputs of this development both coincide with the
character list.) -/
def isIdentifier (s : String) : Bool :=
  if s.data.length == 0 || 255 < s.data.length then false
  else if separators.contains s || specialFunctions.contains s then false
  else
    match s.data with
    | [] => true
    | c0 :: _ =>
      if goIsDigit c0 then false
      else s.data.all (fun c => goIsLetter c || goIsDigit c || c == '_')

/-- `token.Position`. -/
structure Position where
  line : Int
  column : Int
  pos : Nat
deriving Repr, DecidableEq

/-- The mutable state of a `lexer.Lexer`: the buffered bytes, the single
shared position cell and the file name set by `Do`. -/
structure LexSt where
  bytes : List Char
  p : Position
  filename : String
deriving Repr, DecidableEq

/-- `context.Eof`. -/
def eofL (st : LexSt) : Bool := st.bytes.length ≤ st.p.pos

/-- `context.Sof`. -/
def sofL (st : LexSt) : Bool := st.p.pos ≤ 0

/-- `context.Current`: the byte at the cursor, or `0` at EOF. -/
def currentL (st : LexSt) : Char :=
  if eofL st then nul else st.bytes.getD st.p.pos nul

/-- `context.Advance`: no-op at EOF; otherwise one byte forward, then if the
byte now under the cursor is a newline the line is incremented and the
column reset to 1, otherwise the column is incremented. -/
def advanceL (st : LexSt) : LexSt :=
  if eofL st then st
  else
    let st1 : LexSt := { st with p := { st.p with pos := st.p.pos + 1 } }
    let cur := currentL st1
    if cur ≠ nul ∧ cur = '\n' then
      { st1 with p := { st1.p with line := st1.p.line + 1, column := 1 } }
    else
      { st1 with p := { st1.p with column := st1.p.column + 1 } }

/-- The column-recomputation loop of `context.Backward`: starting at byte
index `i` and scanning down, count the bytes before hitting a newline
(the Go loop `for i := pos-1; i >= 0; i--`). -/
def backRun (bytes : List Char) : Nat → Nat
  | 0 => if bytes.getD 0 nul = '\n' then 0 else 1
  | i + 1 => if bytes.getD (i + 1) nul = '\n' then 0 else 1 + backRun bytes i

/-- `context.Backward`: no-op at SOF; otherwise one byte back; when the byte
now under the cursor is a newline, decrement the line and recompute the
column by rescanning to the previous newline; otherwise decrement the
column if it is above 1. -/
def backwardL (st : LexSt) : LexSt :=
  if sofL st then st
  else
    let p1 := st.p.pos - 1
    let st1 : LexSt := { st with p := { st.p with pos := p1 } }
    let cur := currentL st1
    if cur = '\n' then
      let col : Int := 1 + (if p1 = 0 then 0 else (backRun st.bytes (p1 - 1) : Int))
      { st1 with p := { st1.p with line := st1.p.line - 1, column := col } }
    else
      if 1 < st1.p.column then
        { st1 with p := { st1.p with column := st1.p.column - 1 } }
      else st1

/-- `Lexer.makeError`: `"<msg> (at <filename>:<line>:<column>)"`. -/
def lexErrFmt (msg filename : String) (line column : Int) : String :=
  msg ++ " (at " ++ filename ++ ":" ++ toString line ++ ":" ++ toString column ++ ")"

def lexMakeError (st : LexSt) (msg : String) : String :=
  lexErrFmt msg st.filename st.p.line st.p.column

/-- `context.Slice`: the substring `[start, end)`, or an error if
`start > end`, `start < 0` (vacuous here since offsets are `Nat`, kept for
fidelity to the source's check) or `end` exceeds the buffer length. -/
def sliceL (st : LexSt) (start stop : Nat) : Except String String :=
  if start > stop then
    .error (lexMakeError st ("Start " ++ toString start ++ " is higher than end " ++ toString stop))
  else if (start : Int) < 0 then
    .error (lexMakeError st ("Start " ++ toString start ++ " is negative"))
  else if stop > st.bytes.length then
    .error (lexMakeError st ("End " ++ toString stop ++ " is out of bounds"))
  else
    .ok (String.mk ((st.bytes.drop start).take (stop - start)))

/-- How a token holds its `*token.Position`: the lexer's single shared cell
(still mutated by the rest of the run) or a freshly allocated copy. -/
inductive PosRef where
  | shared
  | copy (p : Position)
deriving Repr, DecidableEq

/-- `token.Token` as produced by the lexer. -/
structure LToken where
  literal : String
  kind : Kind
  posRef : PosRef
deriving Repr, DecidableEq

/-- Reading `tok.Position` once the lexer's cell has value `final`. -/
def observedPos (t : LToken) (final : Position) : Position :=
  match t.posRef with
  | .shared => final
  | .copy p => p

/-- The Go result triple `(*token.Token, bool, error)` of a tokenizer,
collapsed in the order `Lexer.tokenize` inspects it: error first, then
no-match, then the (possibly nil) token. -/
inductive TokStep where
  | tok (t : Option LToken)
  | noMatch
  | err (e : String)
deriving Repr, DecidableEq

/-- `tokenizer.Tokenizer`. -/
def Tokenizer := LexSt → TokStep × LexSt

theorem advanceL_bytes (st : LexSt) : (advanceL st).bytes = st.bytes := by
  unfold advanceL
  split
  · rfl
  · dsimp only
    split <;> rfl

theorem advanceL_filename (st : LexSt) : (advanceL st).filename = st.filename := by
  unfold advanceL
  split
  · rfl
  · dsimp only
    split <;> rfl

theorem advanceL_pos (st : LexSt) :
    (advanceL st).p.pos = if eofL st then st.p.pos else st.p.pos + 1 := by
  unfold advanceL
  split
  · simp_all
  · dsimp only
    split <;> simp_all

theorem advanceL_pos_of_not_eof (st : LexSt) (h : ¬ eofL st = true) :
    (advanceL st).p.pos = st.p.pos + 1 := by
  rw [advanceL_pos]
  simp [h]

theorem not_eofL_of_currentL_ne_nul (st : LexSt) (h : currentL st ≠ nul) :
    ¬ eofL st = true := by
  intro he
  apply h
  unfold currentL
  simp [he]

theorem eofL_iff (st : LexSt) : eofL st = true ↔ st.bytes.length ≤ st.p.pos := by
  simp [eofL]

theorem lex_measure_decreases (st : LexSt) (h : currentL st ≠ nul) :
    (advanceL st).bytes.length - (advanceL st).p.pos
      < st.bytes.length - st.p.pos := by
  have hnot := not_eofL_of_currentL_ne_nul st h
  rw [advanceL_bytes, advanceL_pos_of_not_eof st hnot]
  rw [eofL_iff] at hnot
  push_neg at hnot
  omega

/-- The scan loop shared by the Identifier tokenizer (letters, digits and
underscores, greedily).  The loop advances on every iteration, so the fuel
supplied by the callers (`bytes.length + 1`) is never exhausted. -/
def identScan : Nat → LexSt → LexSt
  | 0, st => st
  | fuel + 1, st =>
    if currentL st = nul ∨
        (¬ goIsLetter (currentL st) ∧ currentL st ≠ '_' ∧ ¬ goIsDigit (currentL st)) then st
    else identScan fuel (advanceL st)

/-- The per-byte `Backward` backtrack loop `for range end - start`. -/
def backN : Nat → LexSt → LexSt
  | 0, st => st
  | n + 1, st => backN n (backwardL st)

/-- `Default.Identifier` from the tokenizer chain: match a letter or `_`,
greedily consume letters/digits/underscores, slice the run, then validate
with `token.IsIdentifier`; on invalid runs backtrack one `Backward` per
consumed byte and decline.  The token stores the shared position cell. -/
def tkIdentifier : Tokenizer := fun st =>
  let cur := currentL st
  if cur = nul ∨ (¬ goIsLetter cur ∧ cur ≠ '_') then (.noMatch, st)
  else
    let start := st.p.pos
    let st1 := identScan (st.bytes.length + 1) st
    let stop := st1.p.pos
    match sliceL st1 start stop with
    | .error e => (.err e, st1)
    | .ok str =>
      if ¬ isIdentifier str then (.noMatch, backN (stop - start) st1)
      else (.tok (some ⟨str, kIdentifier, .shared⟩), st1)

/-- The digit scan loop of `Default.Number`. -/
def numberScan : Nat → LexSt → LexSt
  | 0, st => st
  | fuel + 1, st =>
    if currentL st = nul ∨ ¬ goIsDigit (currentL st) then st
    else numberScan fuel (advanceL st)

/-- `Default.Number`: a greedy run of digits. -/
def tkNumber : Tokenizer := fun st =>
  let cur := currentL st
  if cur = nul ∨ ¬ goIsDigit cur then (.noMatch, st)
  else
    let start := st.p.pos
    let st1 := numberScan (st.bytes.length + 1) st
    let stop := st1.p.pos
    match sliceL st1 start stop with
    | .error e => (.err e, st1)
    | .ok str => (.tok (some ⟨str, kNumber, .shared⟩), st1)

/-- `Default.Separator`: exactly one byte that, as a one-character string,
is a member of `token.Separators`. -/
def tkSeparator : Tokenizer := fun st =>
  let cur := currentL st
  if cur = nul ∨ ¬ separators.contains (String.mk [cur]) then (.noMatch, st)
  else
    let st1 := advanceL st
    (.tok (some ⟨String.mk [cur], kSeparator, .shared⟩), st1)

/-- The scan loop of `Default.String`: advance first, then fail at EOF,
then stop on a closing quote.  The byte immediately after the opening
quote is therefore consumed without ever being tested. -/
def strScan : Nat → LexSt → Except LexSt LexSt
  | 0, st => .error st
  | fuel + 1, st =>
    let st1 := advanceL st
    if eofL st1 then .error st1
    else if currentL st1 = '"' then .ok st1
    else strScan fuel st1

/-- `Default.String`. -/
def tkString : Tokenizer := fun st =>
  let cur := currentL st
  if cur = nul ∨ cur ≠ '"' then (.noMatch, st)
  else
    let st1 := advanceL st
    let start := st1.p.pos
    match strScan (st.bytes.length + 1) st1 with
    | .error stE =>
      (.err (lexMakeError stE "String(): Found EOF when tokenizing string, expected closing \""), stE)
    | .ok st2 =>
      let stop := st2.p.pos
      let st3 := advanceL st2
      match sliceL st3 start stop with
      | .error e => (.err e, st3)
      | .ok str => (.tok (some ⟨str, kString, .shared⟩), st3)

/-- `Default.Char`: a backtick, one letter, a closing backtick. -/
def tkChar : Tokenizer := fun st =>
  let cur := currentL st
  if cur = nul ∨ cur ≠ '`' then (.noMatch, st)
  else
    let st1 := advanceL st
    let ch := currentL st1
    if ¬ goIsLetter ch then
      (.err (lexMakeError st1 "Char(): Expected letter"), st1)
    else
      let st2 := advanceL st1
      if currentL st2 ≠ '`' ∨ eofL st2 then
        (.err (lexMakeError st2 "Char(): Found EOF when tokenizing character, expected closing `"), st2)
      else
        let st3 := advanceL st2
        (.tok (some ⟨String.mk [ch], kChar, .shared⟩), st3)

/-- Modelled from the spec: the default chain's recognition of reserved
special-function names.  The snapshot has no tokenizer producing a
`SpecialFunction` token (the current `pkg/lexer/tokenizer` package imported
by `main.go` is absent; the historical `Default.Type` matcher it replaces
references a `token.Types` list that is equally absent), while the token
model reserves `token.SpecialFunctions` and the glossary says special
functions are "recognized lexically rather than as a plain identifier".
Following the structure of the Identifier matcher: scan an
identifier-shaped run, accept it only if it is a member of
`token.SpecialFunctions`, otherwise backtrack and decline. -/
def tkSpecialFunction : Tokenizer := fun st =>
  let cur := currentL st
  if cur = nul ∨ ¬ goIsLetter cur then (.noMatch, st)
  else
    let start := st.p.pos
    let st1 := identScan (st.bytes.length + 1) st
    let stop := st1.p.pos
    match sliceL st1 start stop with
    | .error e => (.err e, st1)
    | .ok str =>
      if specialFunctions.contains str then
        (.tok (some ⟨str, kSpecialFunction, .shared⟩), st1)
      else (.noMatch, backN (stop - start) st1)

/-- The default tokenizer chain in registration order: the source's
Identifier, Number, Separator, String and Char matchers followed by the
spec-modelled special-function matcher (see `tkSpecialFunction`). -/
def defaultChain : List Tokenizer :=
  [tkIdentifier, tkNumber, tkSeparator, tkString, tkChar, tkSpecialFunction]

/-- `Lexer.skipWhitespace`.  Advances on every iteration; the fuel
`bytes.length + 1` supplied by `lexLoop` is never exhausted. -/
def skipWs : Nat → LexSt → LexSt
  | 0, st => st
  | fuel + 1, st =>
    if currentL st ≠ nul ∧ goIsSpace (currentL st) then skipWs fuel (advanceL st)
    else st

/-- `Lexer.tokenize`: run the chain in order; an error aborts, a no-match
moves on (with whatever cursor state the tokenizer left behind, exactly as
in the source), the first claim wins; an exhausted chain is the
"Unknown character" error at the current position. -/
def tokenizeChain : List Tokenizer → LexSt → Except String (Option LToken) × LexSt
  | [], st => (.error (lexMakeError st "Unknown character"), st)
  | t :: rest, st =>
    match t st with
    | (.err e, st1) => (.error e, st1)
    | (.noMatch, st1) => tokenizeChain rest st1
    | (.tok o, st1) => (.ok o, st1)

/-- One run of the lexer: the result of `Lexer.Do`. -/
inductive LexRes where
  | ok (toks : List (Option LToken))
  | err (e : String)
  | diverge
deriving Repr, DecidableEq

/-- The loop of `Lexer.Do`: while not at EOF, skip whitespace, tokenize,
append, skip whitespace again.  `fuel` bounds the number of iterations;
the chains considered here consume at least one byte per produced token,
so the fuel supplied by `lexerDo` is never exhausted. -/
def lexLoop (chain : List Tokenizer) : Nat → LexSt → List (Option LToken) → LexRes × LexSt
  | 0, st, _ => (.diverge, st)
  | fuel + 1, st, acc =>
    if eofL st then (.ok acc, st)
    else
      let st1 := skipWs (st.bytes.length + 1) st
      match tokenizeChain chain st1 with
      | (.error e, st2) => (.err e, st2)
      | (.ok o, st2) =>
        let st3 := skipWs (st2.bytes.length + 1) st2
        lexLoop chain fuel st3 (acc ++ [o])

/-- `Lexer.Do`: set the file name, return an (empty) result at once when no
tokenizers are registered (Go returns a nil slice there), otherwise run the
loop.  The cursor is *not* reset, so a second `Do` resumes where the first
stopped. -/
def lexerDo (chain : List Tokenizer) (st : LexSt) (filename : String) :
    LexRes × LexSt :=
  let st0 : LexSt := { st with filename := filename }
  if chain.isEmpty then (.ok [], st0)
  else lexLoop chain (st0.bytes.length + 1) st0 []

/-- A freshly constructed lexer (`newBase`): position `{Line: 1, Column: 1,
Position: 0}` over the buffered bytes of `s`. -/
def initLex (s : String) : LexSt :=
  ⟨s.data, ⟨1, 1, 0⟩, ""⟩

/-!
## The parser (`pkg/parser`, `pkg/parser/mini`, `pkg/ast`)

The parser receives finalized tokens; reading `tok.Position` through the
pointer stored by the lexer at that moment yields a plain value, so a
parser-side token (`PTok`) carries a resolved `Position`.
-/

/-- A token as the parser sees it. -/
structure PTok where
  literal : String
  kind : Kind
  pos : Position
deriving Repr, DecidableEq

/-- Resolving a lexed token's position pointer once lexing has finished
with the shared cell at `final`. -/
def resolveTok (final : Position) (t : LToken) : PTok :=
  ⟨t.literal, t.kind, observedPos t final⟩

/-- Lex `s` with `chain` and hand the token list to the parser the way
`main.go` does, resolving each token's position pointer; an erroring or
diverging lex hands over no tokens. -/
def lexTokens (chain : List Tokenizer) (s filename : String) : List PTok :=
  match lexerDo chain (initLex s) filename with
  | (.ok l, st1) => l.filterMap (fun o => o.map (resolveTok st1.p))
  | _ => []

/-- `ast.FunctionArgument`. -/
structure FuncArg where
  name : String
  variadic : Bool
deriving Repr, DecidableEq

/-- The closed set of `ast.Node` variants.  `ast.Function.Body` has Go type
`[]ast.Instruction`; here a body is a list of `instr` nodes, which
`Default.FunctionBody`'s type assertion enforces. -/
inductive Node where
  | topLevel (identifier : String) (expr : Node)
  | value (literal : String) (kind : Kind)
  | ref (identifier : String)
  | func (args : List FuncArg) (body : List Node)
  | instr (name : String) (args : List Node)
  | arr (elements : List Node) (fixed : Bool) (fixedSize : Int)
  | specialFn (name : String) (args : List Node)
deriving Repr

/-- The outcome of a parser computation: a value, a syntax error (already
rendered by `Parser.makeError`), a Go runtime panic (`crash`), or fuel
exhaustion standing for a loop the source performs without a bound. -/
inductive PR (α : Type) where
  | ok (a : α)
  | err (e : String)
  | crash (m : String)
  | diverge
deriving Repr, DecidableEq

/-- The immutable part of the parser state during one `Do`. -/
structure PCtx where
  tokens : List PTok
  filename : String
deriving Repr, DecidableEq

/-- The full `parser.Parser` state. -/
structure PSt where
  tokens : List PTok
  pos : Nat
  filename : String
deriving Repr, DecidableEq

/-- `context.IsEnd`. -/
def isEndT (ctx : PCtx) (pos : Nat) : Bool := ctx.tokens.length ≤ pos

/-- `context.Current`: the token at the cursor, or none at the end. -/
def currentT (ctx : PCtx) (pos : Nat) : Option PTok := ctx.tokens.get? pos

/-- `context.Advance`: no-op at the end. -/
def advanceT (ctx : PCtx) (pos : Nat) : Nat :=
  if isEndT ctx pos then pos else pos + 1

/-- `Parser.makeError`: `"<msg> (<filename>:<line>:<column>)"`. -/
def parserErrFmt (msg filename : String) (line column : Int) : String :=
  msg ++ " (" ++ filename ++ ":" ++ toString line ++ ":" ++ toString column ++ ")"

def pMakeError (ctx : PCtx) (msg : String) (p : Position) : String :=
  parserErrFmt msg ctx.filename p.line p.column

/-- The Go result pair `(*token.Token, bool)` of `context.ExpectLiteral` /
`context.ExpectKind`, with the out-of-bounds index both perform at
end-of-stream (`tok := c.p.tokens[c.p.pos]` is unguarded) made explicit. -/
inductive ExpectRes where
  | yes (t : PTok)
  | no
  | oob
deriving Repr, DecidableEq

/-- `context.ExpectLiteral`: unguarded index, then compare the literal and
advance on success. -/
def expectLiteral (ctx : PCtx) (pos : Nat) (lit : String) : ExpectRes × Nat :=
  match ctx.tokens.get? pos with
  | none => (.oob, pos)
  | some tok =>
    if tok.literal ≠ lit then (.no, pos)
    else (.yes tok, advanceT ctx pos)

/-- `context.ExpectKind`: unguarded index, then compare the kind and
advance on success. -/
def expectKind (ctx : PCtx) (pos : Nat) (kind : Kind) : ExpectRes × Nat :=
  match ctx.tokens.get? pos with
  | none => (.oob, pos)
  | some tok =>
    if tok.kind ≠ kind then (.no, pos)
    else (.yes tok, advanceT ctx pos)

/-- Go `strconv.Atoi` on the decimal strings this grammar can produce: an
optional sign followed by at least one ASCII digit; anything else is an
"invalid syntax" error.  (The int64 overflow case is not reachable in the
claims considered and is not modelled.) -/
def goAtoi (s : String) : Except String Int :=
  let p : Int × List Char :=
    match s.data with
    | '+' :: rest => (1, rest)
    | '-' :: rest => (-1, rest)
    | cs => (1, cs)
  if p.2 = [] ∨ ¬ p.2.all goIsDigit then
    .error ("strconv.Atoi: parsing " ++ toString (repr s) ++ ": invalid syntax")
  else
    .ok (p.1 * (p.2.foldl (fun acc c => acc * 10 + ((c.toNat : Int) - 48)) 0))

/-- `Default.Value`: try `ExpectKind` for Char, Number, String in order.
When all three decline, the source's own error branch is dead
(`lastTok` is nil exactly when `failed` is true) and the final
`lastTok.Literal` dereferences nil. -/
def valueP (ctx : PCtx) (pos : Nat) : PR Node × Nat :=
  match expectKind ctx pos kChar with
  | (.oob, p) => (.crash "index out of range", p)
  | (.yes t, p) => (.ok (.value t.literal t.kind), p)
  | (.no, p) =>
    match expectKind ctx p kNumber with
    | (.oob, p2) => (.crash "index out of range", p2)
    | (.yes t, p2) => (.ok (.value t.literal t.kind), p2)
    | (.no, p2) =>
      match expectKind ctx p2 kString with
      | (.oob, p3) => (.crash "index out of range", p3)
      | (.yes t, p3) => (.ok (.value t.literal t.kind), p3)
      | (.no, p3) => (.crash "nil token dereference", p3)

/-- `Default.ReferenceToIdentifier`. -/
def refIdentP (ctx : PCtx) (pos : Nat) : PR Node × Nat :=
  match expectKind ctx pos kIdentifier with
  | (.oob, p) => (.crash "index out of range", p)
  | (.yes t, p) => (.ok (.ref t.literal), p)
  | (.no, p) =>
    match currentT ctx p with
    | none => (.crash "nil token dereference", p)
    | some cur => (.err (pMakeError ctx "Expected identifier" cur.pos), p)

/-- The argument loop of `Default.FunctionArgs`. -/
def functionArgsLoop (ctx : PCtx) : Nat → Nat → List FuncArg → PR (List FuncArg) × Nat
  | 0, pos, _ => (.diverge, pos)
  | fuel + 1, pos, acc =>
    match currentT ctx pos with
    | none => (.crash "nil token dereference", pos)
    | some cur =>
      if cur.literal = ")" then (.ok acc, advanceT ctx pos)
      else
        match expectKind ctx pos kIdentifier with
        | (.oob, p) => (.crash "index out of range", p)
        | (.no, p) =>
          match currentT ctx p with
          | none => (.crash "nil token dereference", p)
          | some c2 =>
            (.err (pMakeError ctx "Expected identifier when parsing function arguments" c2.pos), p)
        | (.yes name, p) =>
          match currentT ctx p with
          | none => (.crash "nil token dereference", p)
          | some c2 =>
            let vp : Bool × Nat :=
              if c2.literal = "^" then (true, advanceT ctx p) else (false, p)
            let acc2 := acc ++ [⟨name.literal, vp.1⟩]
            match currentT ctx vp.2 with
            | none => (.crash "nil token dereference", vp.2)
            | some c3 =>
              if c3.literal = "," then functionArgsLoop ctx fuel (advanceT ctx vp.2) acc2
              else if c3.literal = ")" then (.ok acc2, advanceT ctx vp.2)
              else (.err (pMakeError ctx "Expected ',' or ')' after argument" c3.pos), vp.2)

/-- `Default.FunctionArgs`. -/
def functionArgsP (ctx : PCtx) (fuel pos : Nat) : PR (List FuncArg) × Nat :=
  match expectLiteral ctx pos "(" with
  | (.oob, p) => (.crash "index out of range", p)
  | (.no, p) =>
    match currentT ctx p with
    | none => (.crash "nil token dereference", p)
    | some cur =>
      (.err (pMakeError ctx "Expected '(' when parsing function arguments" cur.pos), p)
  | (.yes _, p) => functionArgsLoop ctx fuel p []

/-!
The grammar functions `Expression`, `Function`, `FunctionBody`,
`Instruction`, `Array` and `SpecialFunction` are mutually recursive in the
source.  They are embedded as one structure of functions built by a single
recursion on fuel: at fuel `n + 1` every recursive call — a loop iteration
or a call to another grammar function — uses the functions at fuel `n`,
and fuel 0 is the explicit `diverge` outcome.  `Parser.Do` supplies fuel
`tokens.length + 1`; every loop iteration and every nested `Expression`
consumes at least one token, so real runs never exhaust it.
-/

structure ParserFns where
  expression : PCtx → Nat → PR Node × Nat
  functionP : PCtx → Nat → PR Node × Nat
  functionBodyP : PCtx → Nat → PR (List Node) × Nat
  bodyLoop : PCtx → Nat → List Node → PR (List Node) × Nat
  instructionP : PCtx → Nat → PR Node × Nat
  instrArgsLoop : PCtx → Nat → String → List Node → PR Node × Nat
  arrayP : PCtx → Nat → PR Node × Nat
  arrayLoop : PCtx → Nat → List Node → PR (List Node) × Nat
  specialFunctionP : PCtx → Nat → PR Node × Nat
  specFnLoop : PCtx → Nat → String → List Node → PR Node × Nat

/-- Everything diverges with no fuel. -/
def divergedFns : ParserFns where
  expression := fun _ pos => (.diverge, pos)
  functionP := fun _ pos => (.diverge, pos)
  functionBodyP := fun _ pos => (.diverge, pos)
  bodyLoop := fun _ pos _ => (.diverge, pos)
  instructionP := fun _ pos => (.diverge, pos)
  instrArgsLoop := fun _ pos _ _ => (.diverge, pos)
  arrayP := fun _ pos => (.diverge, pos)
  arrayLoop := fun _ pos _ => (.diverge, pos)
  specialFunctionP := fun _ pos => (.diverge, pos)
  specFnLoop := fun _ pos _ _ => (.diverge, pos)

/-- The grammar functions with `fuel + 1` steps, given the functions
`prev` with `fuel` steps. -/
def stepFns (fuel : Nat) (prev : ParserFns) : ParserFns where
  /- `Default.Expression`: dispatch on the current token's kind, then its
  literal; nothing matching is the "Unknown token" syntax error.  A nil
  current token (cursor at the end) is dereferenced by the source. -/
  expression := fun ctx pos =>
    match currentT ctx pos with
    | none => (.crash "nil token dereference", pos)
    | some tok =>
      if tok.kind = kNumber ∨ tok.kind = kChar ∨ tok.kind = kString then valueP ctx pos
      else if tok.kind = kIdentifier then refIdentP ctx pos
      else if tok.kind = kSpecialFunction then prev.specialFunctionP ctx pos
      else if tok.literal = "(" then prev.functionP ctx pos
      else if tok.literal = "[" then prev.arrayP ctx pos
      else (.err (pMakeError ctx "Unknown token" tok.pos), pos)
  /- `Default.Function`: arguments then body. -/
  functionP := fun ctx pos =>
    match functionArgsP ctx fuel pos with
    | (.ok args, p) =>
      match prev.functionBodyP ctx p with
      | (.ok body, p2) => (.ok (.func args body), p2)
      | (.err e, p2) => (.err e, p2)
      | (.crash m, p2) => (.crash m, p2)
      | (.diverge, p2) => (.diverge, p2)
    | (.err e, p) => (.err e, p)
    | (.crash m, p) => (.crash m, p)
    | (.diverge, p) => (.diverge, p)
  /- `Default.FunctionBody`: `{`, then instructions until a `}` is seen.
  The loop condition is `!c.IsEnd()`: exhausting the input before a `}`
  ends the loop silently and returns the instructions collected so far. -/
  functionBodyP := fun ctx pos =>
    match expectLiteral ctx pos "\x7b" with
    | (.oob, p) => (.crash "index out of range", p)
    | (.no, p) =>
      match currentT ctx p with
      | none => (.crash "nil token dereference", p)
      | some cur =>
        (.err (pMakeError ctx "Expected \x7b when parsing function body" cur.pos), p)
    | (.yes _, p) => prev.bodyLoop ctx p []
  /- The instruction loop of `Default.FunctionBody`. -/
  bodyLoop := fun ctx pos acc =>
    if isEndT ctx pos then (.ok acc, pos)
    else
      match currentT ctx pos with
      | none => (.crash "nil token dereference", pos)
      | some cur =>
        if cur.literal = "\x7d" then (.ok acc, advanceT ctx pos)
        else
          match prev.instructionP ctx pos with
          | (.ok n, p) =>
            match n with
            | .instr _ _ => prev.bodyLoop ctx p (acc ++ [n])
            | _ => (.err (pMakeError ctx "Expected instruction" cur.pos), p)
          | (.err e, p) => (.err e, p)
          | (.crash m, p) => (.crash m, p)
          | (.diverge, p) => (.diverge, p)
  /- `Default.Instruction`: an identifier name, then `Expression` arguments
  separated by `,` and terminated by `;`. -/
  instructionP := fun ctx pos =>
    match expectKind ctx pos kIdentifier with
    | (.oob, p) => (.crash "index out of range", p)
    | (.no, p) =>
      match currentT ctx p with
      | none => (.crash "nil token dereference", p)
      | some cur =>
        (.err (pMakeError ctx "Expected name of the instruction" cur.pos), p)
    | (.yes name, p) => prev.instrArgsLoop ctx p name.literal []
  /- The argument loop of `Default.Instruction`. -/
  instrArgsLoop := fun ctx pos name acc =>
    match currentT ctx pos with
    | none => (.crash "nil token dereference", pos)
    | some cur =>
      if cur.literal = ";" then (.ok (.instr name acc), advanceT ctx pos)
      else
        match prev.expression ctx pos with
        | (.ok e, p) =>
          match currentT ctx p with
          | none => (.crash "nil token dereference", p)
          | some c2 =>
            if c2.literal = "," then prev.instrArgsLoop ctx (advanceT ctx p) name (acc ++ [e])
            else if c2.literal = ";" then (.ok (.instr name (acc ++ [e])), advanceT ctx p)
            else (.err (pMakeError ctx "Expected ',' or ';' after instruction argument" c2.pos), p)
        | (.err e, p) => (.err e, p)
        | (.crash m, p) => (.crash m, p)
        | (.diverge, p) => (.diverge, p)
  /- `Default.Array`: `[`, elements, `]`, then an optional trailing Number
  declaring a fixed size (parsed with `strconv.Atoi`). -/
  arrayP := fun ctx pos =>
    match expectLiteral ctx pos "[" with
    | (.oob, p) => (.crash "index out of range", p)
    | (.no, p) =>
      match currentT ctx p with
      | none => (.crash "nil token dereference", p)
      | some cur =>
        (.err (pMakeError ctx "Expected '[' in the start of array" cur.pos), p)
    | (.yes _, p) =>
      match prev.arrayLoop ctx p [] with
      | (.ok elems, p2) =>
        match currentT ctx p2 with
        | none => (.crash "nil token dereference", p2)
        | some cur =>
          if cur.kind = kNumber then
            match goAtoi cur.literal with
            | .error e =>
              (.err (pMakeError ctx ("Failed to convert literal into number: " ++ e) cur.pos), p2)
            | .ok num => (.ok (.arr elems true num), advanceT ctx p2)
          else (.ok (.arr elems false 0), p2)
      | (.err e, p2) => (.err e, p2)
      | (.crash m, p2) => (.crash m, p2)
      | (.diverge, p2) => (.diverge, p2)
  /- The element loop of `Default.Array`. -/
  arrayLoop := fun ctx pos acc =>
    match currentT ctx pos with
    | none => (.crash "nil token dereference", pos)
    | some cur =>
      if cur.literal = "]" then (.ok acc, advanceT ctx pos)
      else
        match prev.expression ctx pos with
        | (.ok e, p) =>
          match currentT ctx p with
          | none => (.crash "nil token dereference", p)
          | some c2 =>
            if c2.literal = "]" then (.ok (acc ++ [e]), advanceT ctx p)
            else if c2.literal = "," then prev.arrayLoop ctx (advanceT ctx p) (acc ++ [e])
            else (.err (pMakeError ctx "Expected ']' or ',' after array element" c2.pos), p)
        | (.err e, p) => (.err e, p)
        | (.crash m, p) => (.crash m, p)
        | (.diverge, p) => (.diverge, p)
  /- `Default.SpecialFunction`: the reserved name, `(`, `Expression`
  arguments separated by `,`, terminated by `)`. -/
  specialFunctionP := fun ctx pos =>
    match expectKind ctx pos kSpecialFunction with
    | (.oob, p) => (.crash "index out of range", p)
    | (.no, p) =>
      match currentT ctx p with
      | none => (.crash "nil token dereference", p)
      | some cur =>
        (.err (pMakeError ctx "Expected special function name" cur.pos), p)
    | (.yes name, p) =>
      match expectLiteral ctx p "(" with
      | (.oob, p2) => (.crash "index out of range", p2)
      | (.no, p2) =>
        match currentT ctx p2 with
        | none => (.crash "nil token dereference", p2)
        | some cur =>
          (.err (pMakeError ctx "Expected opening '(' after special function name" cur.pos), p2)
      | (.yes _, p2) => prev.specFnLoop ctx p2 name.literal []
  /- The argument loop of `Default.SpecialFunction`. -/
  specFnLoop := fun ctx pos name acc =>
    match currentT ctx pos with
    | none => (.crash "nil token dereference", pos)
    | some cur =>
      if cur.literal = ")" then (.ok (.specialFn name acc), advanceT ctx pos)
      else
        match prev.expression ctx pos with
        | (.ok e, p) =>
          match currentT ctx p with
          | none => (.crash "nil token dereference", p)
          | some c2 =>
            if c2.literal = "," then prev.specFnLoop ctx (advanceT ctx p) name (acc ++ [e])
            else if c2.literal = ")" then (.ok (.specialFn name (acc ++ [e])), advanceT ctx p)
            else
              (.err (pMakeError ctx "Expected ',' or ';' after special function argument\n" c2.pos), p)
        | (.err e, p) => (.err e, p)
        | (.crash m, p) => (.crash m, p)
        | (.diverge, p) => (.diverge, p)

/-- The grammar functions with a given amount of fuel. -/
def mkFns : Nat → ParserFns
  | 0 => divergedFns
  | fuel + 1 => stepFns fuel (mkFns fuel)

/-- `Default.Expression` (see `stepFns`). -/
def expression (ctx : PCtx) (fuel pos : Nat) : PR Node × Nat :=
  match fuel with
  | 0 => (.diverge, pos)
  | f + 1 => (mkFns (f + 1)).expression ctx pos

/-- `Default.FunctionBody` (see `stepFns`). -/
def functionBodyP (ctx : PCtx) (fuel pos : Nat) : PR (List Node) × Nat :=
  match fuel with
  | 0 => (.diverge, pos)
  | f + 1 => (mkFns (f + 1)).functionBodyP ctx pos

/-- The Go result triple `(ast.Node, bool, error)` of a mini parser. -/
inductive MPR where
  | node (n : Node)
  | noMatch
  | err (e : String)
  | crash (m : String)
  | diverge
deriving Repr

/-- `mini.Parser`. -/
def MiniP := PCtx → Nat → Nat → MPR × Nat

/-- `Default.TopLevel`: an identifier then an `Expression`; a non-identifier
first token declines. -/
def topLevelP : MiniP := fun ctx fuel pos =>
  match expectKind ctx pos kIdentifier with
  | (.oob, p) => (.crash "index out of range", p)
  | (.no, p) => (.noMatch, p)
  | (.yes idTok, p) =>
    match expression ctx fuel p with
    | (.ok e, p2) => (.node (.topLevel idTok.literal e), p2)
    | (.err e, p2) => (.err e, p2)
    | (.crash m, p2) => (.crash m, p2)
    | (.diverge, p2) => (.diverge, p2)

/-- The default mini-parser chain (`mini.Default.Append`). -/
def defaultMinis : List MiniP := [topLevelP]

/-- The chain walk of `Parser.parse`, after the position of the current
token has been captured for the "Unknown token" error. -/
def parseTry (ctx : PCtx) (fuel : Nat) (tok : PTok) :
    List MiniP → Nat → PR Node × Nat
  | [], pos => (.err (pMakeError ctx "Unknown token" tok.pos), pos)
  | m :: rest, pos =>
    match m ctx fuel pos with
    | (.node n, p) => (.ok n, p)
    | (.noMatch, p) => parseTry ctx fuel tok rest p
    | (.err e, p) => (.err e, p)
    | (.crash msg, p) => (.crash msg, p)
    | (.diverge, p) => (.diverge, p)

/-- `Parser.parse`: `tok := p.tokens[p.pos]` is unguarded, then the chain
is walked in order. -/
def parseStep (chain : List MiniP) (ctx : PCtx) (fuel pos : Nat) : PR Node × Nat :=
  match ctx.tokens.get? pos with
  | none => (.crash "index out of range", pos)
  | some tok => parseTry ctx fuel tok chain pos

/-- The loop of `Parser.Do`: run `parse` until the cursor reaches the end,
collecting one top-level node per step. -/
def parserLoop (chain : List MiniP) (ctx : PCtx) :
    Nat → Nat → List Node → PR (List Node) × Nat
  | 0, pos, _ => (.diverge, pos)
  | fuel + 1, pos, acc =>
    if isEndT ctx pos then (.ok acc, pos)
    else
      match parseStep chain ctx (ctx.tokens.length + 1) pos with
      | (.ok n, p) => parserLoop chain ctx fuel p (acc ++ [n])
      | (.err e, p) => (.err e, p)
      | (.crash m, p) => (.crash m, p)
      | (.diverge, p) => (.diverge, p)

/-- `Parser.Do`: `reset` sets the cursor back to 0 and records the file
name, then the loop runs; with no registered mini parsers an empty tree is
returned at once.  The result is the `ast.Tree.TopLevel` list. -/
def parserDo (chain : List MiniP) (st : PSt) (filename : String) :
    PR (List Node) × PSt :=
  let ctx : PCtx := ⟨st.tokens, filename⟩
  if chain.isEmpty then (.ok [], ⟨st.tokens, 0, filename⟩)
  else
    let r := parserLoop chain ctx (st.tokens.length + 1) 0 []
    (r.fst, ⟨st.tokens, r.snd, filename⟩)

/-!
## Comparison definitions and fixtures

Definitions below are either taken from the repository's test files or
written from the specification's words, to be compared against the
source-derived definitions above.
-/

/-- `testTokenizer` from `lexer/lexer_test.go`: matches one fixed byte and
stores a *copy* of the position taken after the advance (at EOF the Go
function returns `nil, false, nil`, i.e. a match carrying a nil token). -/
def tkTest (matchByte : Char) (k : Kind) : Tokenizer := fun st =>
  if eofL st then (.tok none, st)
  else if currentL st ≠ matchByte then (.noMatch, st)
  else
    let st1 := advanceL st
    (.tok (some ⟨String.mk [matchByte], k, .copy st1.p⟩), st1)

/-- The error rendering the spec prescribes for every position-bearing
error: `"<message> (<sourceName>:<line>:<column>)"` (spec §7).  Written
from the spec's words, for comparison with `lexErrFmt` and
`parserErrFmt`. -/
def specErrRender (msg src : String) (line column : Int) : String :=
  msg ++ " (" ++ src ++ ":" ++ toString line ++ ":" ++ toString column ++ ")"

/-- `Advance` as the claim words it: one byte forward and, exactly when the
move *crosses* a newline — i.e. the byte being moved over is `'\n'` — the
line is incremented and the column reset to 1; otherwise the column is
incremented; a no-op at EOF.  Written from the claim's words, for
comparison with `advanceL`. -/
def specAdvanceClaim (st : LexSt) : LexSt :=
  if eofL st then st
  else if st.bytes.getD st.p.pos nul = '\n' then
    { st with p := { line := st.p.line + 1, column := 1, pos := st.p.pos + 1 } }
  else
    { st with p := { st.p with column := st.p.column + 1, pos := st.p.pos + 1 } }

/-- A one-token fixture: the identifier `x` at the initial position. -/
def xTok : PTok := ⟨"x", kIdentifier, ⟨1, 1, 0⟩⟩

/-- The token stream `{` alone: a function body whose input is exhausted
before any `}`. -/
def openBraceOnly : PCtx := ⟨[⟨"\x7b", kSeparator, ⟨1, 1, 0⟩⟩], "f"⟩

/-- The token stream `{ add x ;` — a body with one complete instruction but
no closing `}`. -/
def truncatedBody : PCtx :=
  ⟨[⟨"\x7b", kSeparator, ⟨1, 1, 0⟩⟩, ⟨"add", kIdentifier, ⟨1, 3, 2⟩⟩,
    ⟨"x", kIdentifier, ⟨1, 7, 6⟩⟩, ⟨";", kSeparator, ⟨1, 9, 8⟩⟩], "f"⟩

/-!
## Claims
-/

/-- C3: Lexing `"at"` with the default tokenizer chain yields a single
token of kind `SpecialFunction` — not `Identifier` — and afterwards the
cursor offset equals 2, the length of `"at"`: the Identifier matcher's
backtrack leaks no partial advance.  (The chain is the source's five
matchers plus the spec-modelled special-function matcher, see
`tkSpecialFunction`.) -/
theorem c3_at_is_special_function :
    (lexerDo defaultChain (initLex "at") "f").fst
        = .ok [some ⟨"at", kSpecialFunction, .shared⟩]
      ∧ (lexerDo defaultChain (initLex "at") "f").snd.p.pos = 2
      ∧ "at".data.length = 2
      ∧ kSpecialFunction ≠ kIdentifier := by
  refine ⟨by decide, by decide, by decide, by decide⟩

/-- C9: the token stream of `main (x, y^) { add result, x, y; }` (produced
by the lexer's default chain) parses with the default mini-parser chain to
exactly one `TopLevel` node: identifier `main`, a `Function` with arguments
`x` (not variadic) and `y` (variadic) and a body of one `add` instruction
whose arguments are references to `result`, `x` and `y`. -/
theorem c9_main_function_parses :
    (parserDo defaultMinis
        ⟨lexTokens defaultChain "main (x, y^) { add result, x, y; }" "f", 0, ""⟩ "f").fst
      = .ok [.topLevel "main"
          (.func [⟨"x", false⟩, ⟨"y", true⟩]
            [.instr "add" [.ref "result", .ref "x", .ref "y"]])] := by
  rfl

/-- C1 counterexample: with the default Identifier tokenizer, lexing
`"a b"` produces two tokens that both store the lexer's one shared position
cell (`token.New(str, kind, c.Position())` stores the pointer).  The first
token was created while the cell read offset 1 — completing `"a"` is one
advance, and the spec's own round-trip convention says a token completed
after one advance records offset 1 — yet after `Do` returns, reading the
first token's position gives offset 3, the final cursor, identical to the
second token's position.  The position was therefore mutated after the
token was created, and the two tokens do not carry distinct positions. -/
theorem c1_counterexample :
    (lexerDo [tkIdentifier] (initLex "a b") "f").fst
        = .ok [some ⟨"a", kIdentifier, .shared⟩, some ⟨"b", kIdentifier, .shared⟩]
      ∧ (tkIdentifier ⟨"a b".data, ⟨1, 1, 0⟩, "f"⟩).snd.p.pos = 1
      ∧ observedPos ⟨"a", kIdentifier, .shared⟩ (lexerDo [tkIdentifier] (initLex "a b") "f").snd.p
          = observedPos ⟨"b", kIdentifier, .shared⟩ (lexerDo [tkIdentifier] (initLex "a b") "f").snd.p
      ∧ (observedPos ⟨"a", kIdentifier, .shared⟩
            (lexerDo [tkIdentifier] (initLex "a b") "f").snd.p).pos = 3 := by
  refine ⟨by decide, by decide, by decide, by decide⟩

/-- C1 amended: a token's position snapshot is immutable only when the
matcher copies it.  With the unit tests' copying single-character matchers
for `'a'` and `'b'` on input `"ab"`, the first token's offset is 1, the
second's is 2, the two positions are distinct, and reading either token's
position is independent of any later state of the lexer cell.  Tokens made
by the default tokenizers instead alias the single shared cell (see the
counterexample). -/
theorem c1_amended_copying_matchers :
    (lexerDo [tkTest 'a' kIdentifier, tkTest 'b' kIdentifier] (initLex "ab") "f").fst
        = .ok [some ⟨"a", kIdentifier, .copy ⟨1, 2, 1⟩⟩,
               some ⟨"b", kIdentifier, .copy ⟨1, 3, 2⟩⟩]
      ∧ (∀ q : Position, observedPos ⟨"a", kIdentifier, .copy ⟨1, 2, 1⟩⟩ q = ⟨1, 2, 1⟩)
      ∧ (∀ q : Position, observedPos ⟨"b", kIdentifier, .copy ⟨1, 3, 2⟩⟩ q = ⟨1, 3, 2⟩)
      ∧ (⟨1, 2, 1⟩ : Position) ≠ ⟨1, 3, 2⟩
      ∧ (⟨1, 2, 1⟩ : Position).pos = 1 ∧ (⟨1, 3, 2⟩ : Position).pos = 2 := by
  refine ⟨by decide, fun q => rfl, fun q => rfl, by decide, rfl, rfl⟩

/-- C6 counterexample: `Default.FunctionBody` on the one-token stream `{`
— input exhausted before any `}` — returns the empty instruction list with
no error, where the claim demands a syntax error. -/
theorem c6_counterexample :
    functionBodyP openBraceOnly 2 0 = (.ok [], 1)
      ∧ ∀ e, (functionBodyP openBraceOnly 2 0).fst ≠ PR.err e := by
  refine ⟨rfl, fun e h => ?_⟩
  rw [show functionBodyP openBraceOnly 2 0 = (.ok [], 1) from rfl] at h
  simp at h

/-- C6 amended: the body loop's condition is `!c.IsEnd()`, so exhausting
the token stream before a `}` ends the loop silently and returns the
instructions collected so far with no error: the stream `{` yields the
empty list, and the stream `{ add x ;` yields the single parsed
instruction — a silently truncated body, never a syntax error. -/
theorem c6_amended_silent_truncation :
    functionBodyP openBraceOnly 2 0 = (.ok [], 1)
      ∧ functionBodyP truncatedBody 9 0
          = (.ok [.instr "add" [.ref "x"]], 4) := by
  exact ⟨rfl, rfl⟩

/-- C2 counterexample: the lexer's `Do` does not reset its cursor
(`Parser.Do` calls `reset`, `Lexer.Do` has no counterpart), so running
`Do` twice on the same lexer over input `"a"` gives different results: the
second run starts at EOF and returns an empty token list. -/
theorem c2_counterexample :
    (lexerDo [tkIdentifier] ((lexerDo [tkIdentifier] (initLex "a") "f").snd) "f").fst
      ≠ (lexerDo [tkIdentifier] (initLex "a") "f").fst := by
  decide

/-- C2 amended: the parser's `Do` is idempotent — `reset` returns the
cursor to 0, so for every mini-parser chain, parser state and file name a
second `Do` on the state the first one leaves behind returns the identical
result; the lexer's `Do`, by contrast, leaves its cursor at the point the
run reached, so a second run over consumed input returns an empty token
list (input `"a"`: first run one token, second run none). -/
theorem c2_amended_parser_resets_lexer_does_not :
    (∀ (chain : List MiniP) (st : PSt) (fn : String),
        (parserDo chain (parserDo chain st fn).snd fn).fst
          = (parserDo chain st fn).fst)
      ∧ (lexerDo [tkIdentifier] (initLex "a") "f").fst
          = .ok [some ⟨"a", kIdentifier, .shared⟩]
      ∧ (lexerDo [tkIdentifier] ((lexerDo [tkIdentifier] (initLex "a") "f").snd) "f").fst
          = .ok [] := by
  refine ⟨fun chain st fn => ?_, by decide, by decide⟩
  by_cases hc : chain.isEmpty
  · simp [parserDo, hc]
  · simp [parserDo, hc]

/-- C4 counterexample: the lexer's `makeError` format string is
`"%v (at %v:%v:%v)"` — it inserts `"at "` before the source name — so a
lexical error does not render as the spec's
`"<message> (<sourceName>:<line>:<column>)"`. -/
theorem c4_counterexample :
    lexErrFmt "Unknown character" "main.miniasm" 1 1
      ≠ specErrRender "Unknown character" "main.miniasm" 1 1 := by
  decide

/-- C4 amended: the parser's errors render exactly as the spec says, while
the lexer's errors render with `"at "` prepended to the source name:
`"<message> (at <sourceName>:<line>:<column>)"`. -/
theorem c4_amended_error_rendering :
    ∀ (msg f : String) (line column : Int),
      parserErrFmt msg f line column = specErrRender msg f line column
        ∧ lexErrFmt msg f line column = specErrRender msg ("at " ++ f) line column := by
  intro msg f line column
  refine ⟨rfl, ?_⟩
  show msg ++ " (at " ++ f ++ ":" ++ toString line ++ ":" ++ toString column ++ ")"
      = msg ++ " (" ++ ("at " ++ f) ++ ":" ++ toString line ++ ":" ++ toString column ++ ")"
  rw [show (" (at " : String) = " (" ++ "at " from rfl]
  simp only [String.append_assoc]

/-- C5 counterexample: on input `"a\n"` at the start, `Advance` consumes
the byte `'a'` — no newline is crossed — yet the code increments the line
to 2 and resets the column to 1, because it tests the byte it *lands on*;
the claim ("exactly when that move crosses a newline") demands line 1,
column 2 there. -/
theorem c5_counterexample :
    advanceL (initLex "a\n") = ⟨"a\n".data, ⟨2, 1, 1⟩, ""⟩
      ∧ specAdvanceClaim (initLex "a\n") = ⟨"a\n".data, ⟨1, 2, 1⟩, ""⟩
      ∧ advanceL (initLex "a\n") ≠ specAdvanceClaim (initLex "a\n") := by
  refine ⟨by decide, by decide, by decide⟩

/-- C5 amended: `Advance` is a no-op at EOF and otherwise moves one byte
forward, incrementing the line and resetting the column to 1 exactly when
the byte at the *new* cursor position is a newline (landing on a newline),
and incrementing the column otherwise — not when the consumed byte was a
newline. -/
theorem c5_amended_advance_lands_on_newline :
    ∀ st : LexSt, advanceL st =
      if st.bytes.length ≤ st.p.pos then st
      else
        { st with p :=
          { line := if st.bytes[st.p.pos + 1]? = some '\n' then st.p.line + 1 else st.p.line
            column := if st.bytes[st.p.pos + 1]? = some '\n' then 1 else st.p.column + 1
            pos := st.p.pos + 1 } } := by
  intro st
  by_cases he : st.bytes.length ≤ st.p.pos
  · have h1 : eofL st = true := by simp [eofL, he]
    simp [advanceL, h1, he]
  · have h1 : eofL st = false := by simp [eofL, he]
    rcases h3 : st.bytes[st.p.pos + 1]? with _ | c
    · have hlen : st.bytes.length ≤ st.p.pos + 1 := List.getElem?_eq_none_iff.mp h3
      have h4 : eofL ⟨st.bytes, ⟨st.p.line, st.p.column, st.p.pos + 1⟩, st.filename⟩ = true := by
        simp [eofL, hlen]
      simp [advanceL, h1, he, currentL, h4, h3, nul]
    · have hlt : st.p.pos + 1 < st.bytes.length := by
        by_contra hge
        rw [List.getElem?_eq_none_iff.mpr (Nat.le_of_not_lt hge)] at h3
        exact Option.noConfusion h3
      have h4 : eofL ⟨st.bytes, ⟨st.p.line, st.p.column, st.p.pos + 1⟩, st.filename⟩ = false := by
        simp [eofL]
        omega
      have h5 : st.bytes.getD (st.p.pos + 1) nul = c := by
        rw [List.getD_eq_getElem?_getD, h3]
        rfl
      by_cases hc : c = '\n'
      · subst hc
        simp [advanceL, h1, he, currentL, h4, h5, h3, nul]
      · simp [advanceL, h1, he, currentL, h4, h5, h3, hc, nul]

/-- C8 counterexample: at end-of-stream `ExpectLiteral` and `ExpectKind`
index `p.tokens[p.pos]` out of bounds (a runtime panic), instead of
returning failure without advancing. -/
theorem c8_counterexample :
    expectLiteral ⟨[], "f"⟩ 0 "x" = (.oob, 0)
      ∧ expectKind ⟨[], "f"⟩ 0 kIdentifier = (.oob, 0)
      ∧ (expectLiteral ⟨[], "f"⟩ 0 "x").fst ≠ ExpectRes.no
      ∧ (expectKind ⟨[], "f"⟩ 0 kIdentifier).fst ≠ ExpectRes.no := by
  refine ⟨rfl, rfl, by decide, by decide⟩

/-- C8 amended: wherever a current token exists, `ExpectLiteral` and
`ExpectKind` are safe: they succeed and advance by one exactly when the
current token's literal (resp. kind) equals the argument and otherwise
report failure without advancing; at end-of-stream, however, both perform
an unguarded out-of-bounds index of the token buffer (a runtime panic)
rather than returning failure. -/
theorem c8_amended_expect_total_only_mid_stream :
    ∀ (ctx : PCtx) (pos : Nat) (lit : String) (kind : Kind),
      (∀ tok, ctx.tokens.get? pos = some tok →
          (tok.literal = lit → expectLiteral ctx pos lit = (.yes tok, pos + 1))
        ∧ (tok.literal ≠ lit → expectLiteral ctx pos lit = (.no, pos))
        ∧ (tok.kind = kind → expectKind ctx pos kind = (.yes tok, pos + 1))
        ∧ (tok.kind ≠ kind → expectKind ctx pos kind = (.no, pos)))
      ∧ (ctx.tokens.get? pos = none →
          expectLiteral ctx pos lit = (.oob, pos)
            ∧ expectKind ctx pos kind = (.oob, pos)) := by
  intro ctx pos lit kind
  constructor
  · intro tok hsome
    rw [List.get?_eq_getElem?] at hsome
    have hlt : pos < ctx.tokens.length := by
      by_contra hge
      rw [List.getElem?_eq_none_iff.mpr (Nat.le_of_not_lt hge)] at hsome
      exact Option.noConfusion hsome
    have hadv : advanceT ctx pos = pos + 1 := by
      unfold advanceT isEndT
      simp [Nat.not_le.mpr hlt]
    refine ⟨fun hl => ?_, fun hl => ?_, fun hk => ?_, fun hk => ?_⟩
    · simp [expectLiteral, hsome, hl, hadv]
    · simp [expectLiteral, hsome, hl]
    · simp [expectKind, hsome, hk, hadv]
    · simp [expectKind, hsome, hk]
  · intro hnone
    rw [List.get?_eq_getElem?] at hnone
    exact ⟨by simp [expectLiteral, hnone], by simp [expectKind, hnone]⟩

theorem goIsSpace_ne_nul {c : Char} (h : goIsSpace c = true) : c ≠ nul := by
  intro hc
  subst hc
  exact absurd h (by decide)

theorem currentL_of_eofL (st : LexSt) (h : eofL st = true) : currentL st = nul := by
  simp [currentL, h]

/-- At EOF every member of the default chain declines without touching the
state, so `tokenize` falls through to the "Unknown character" error. -/
theorem tokenizeChain_default_eof (st : LexSt) (h : eofL st = true) :
    tokenizeChain defaultChain st
      = (.error (lexMakeError st "Unknown character"), st) := by
  have hc := currentL_of_eofL st h
  simp [tokenizeChain, defaultChain, tkIdentifier, tkNumber, tkSeparator,
    tkString, tkChar, tkSpecialFunction, hc]

/-- `skipWhitespace` over a buffer whose remaining bytes are all whitespace
runs the cursor to EOF (with some line and column). -/
theorem skipWs_all_space : ∀ (fuel : Nat) (st : LexSt),
    st.p.pos ≤ st.bytes.length →
    st.bytes.length - st.p.pos < fuel →
    (∀ k, st.p.pos ≤ k → k < st.bytes.length → goIsSpace (st.bytes.getD k nul) = true) →
    ∃ li co : Int,
      skipWs fuel st = ⟨st.bytes, ⟨li, co, st.bytes.length⟩, st.filename⟩ := by
  intro fuel
  induction fuel with
  | zero =>
    intro st _ hfuel _
    exact absurd hfuel (Nat.not_lt_zero _)
  | succ fuel ih =>
    intro st hle hfuel hall
    by_cases hend : st.p.pos = st.bytes.length
    · have heof : eofL st = true := by simp [eofL, hend]
      have hcur : currentL st = nul := currentL_of_eofL st heof
      refine ⟨st.p.line, st.p.column, ?_⟩
      rw [show skipWs (fuel + 1) st
            = (if currentL st ≠ nul ∧ goIsSpace (currentL st) then skipWs fuel (advanceL st)
               else st) from rfl]
      simp [hcur, ← hend]
    · have hlt : st.p.pos < st.bytes.length := Nat.lt_of_le_of_ne hle hend
      have heof : eofL st = false := by
        simp [eofL]
        omega
      have hcur : currentL st = st.bytes.getD st.p.pos nul := by
        simp [currentL, heof]
      have hspace : goIsSpace (currentL st) = true := by
        rw [hcur]
        exact hall st.p.pos (Nat.le_refl _) hlt
      have hne : currentL st ≠ nul := goIsSpace_ne_nul hspace
      have hstep : skipWs (fuel + 1) st = skipWs fuel (advanceL st) := by
        rw [show skipWs (fuel + 1) st
              = (if currentL st ≠ nul ∧ goIsSpace (currentL st) then skipWs fuel (advanceL st)
                 else st) from rfl]
        simp [hne, hspace]
      have hb := advanceL_bytes st
      have hf := advanceL_filename st
      have hp := advanceL_pos_of_not_eof st (by simp [heof])
      obtain ⟨li, co, hrec⟩ := ih (advanceL st)
        (by rw [hb, hp]; omega)
        (by rw [hb, hp]; omega)
        (by
          intro k hk1 hk2
          rw [hb] at hk2 ⊢
          rw [hp] at hk1
          exact hall k (by omega) hk2)
      refine ⟨li, co, ?_⟩
      rw [hstep, hrec, hb, hf]

/-- C10: for every non-empty input consisting solely of whitespace bytes,
the lexer's `Do` with the default chain skips the whitespace, reaches EOF,
runs the chain there where no tokenizer matches, and returns the
"Unknown character" error — no token list. -/
theorem c10_whitespace_only_is_unknown_character (l : List Char) (f : String)
    (hne : l ≠ []) (hws : ∀ c ∈ l, goIsSpace c = true) :
    ∃ li co : Int,
      lexerDo defaultChain ⟨l, ⟨1, 1, 0⟩, ""⟩ f
        = (.err (lexErrFmt "Unknown character" f li co),
           ⟨l, ⟨li, co, l.length⟩, f⟩) := by
  have hlen : 0 < l.length := List.length_pos.mpr hne
  have hall : ∀ k, (0 : Nat) ≤ k → k < l.length → goIsSpace (l.getD k nul) = true := by
    intro k _ hk
    have hmem : l.getD k nul ∈ l := by
      rw [List.getD_eq_getElem?_getD, List.getElem?_eq_getElem hk]
      exact List.getElem_mem hk
    exact hws _ hmem
  obtain ⟨li, co, hskip⟩ :=
    skipWs_all_space (l.length + 1) ⟨l, ⟨1, 1, 0⟩, f⟩ (Nat.zero_le _)
      (by simp) hall
  refine ⟨li, co, ?_⟩
  have hchain : (defaultChain.isEmpty) = false := by decide
  have heof0 : eofL ⟨l, ⟨1, 1, 0⟩, f⟩ = false :=
    by simp [eofL, hne]
  have heof1 : eofL ⟨l, ⟨li, co, l.length⟩, f⟩ = true := by simp [eofL]
  have htok := tokenizeChain_default_eof ⟨l, ⟨li, co, l.length⟩, f⟩ heof1
  show lexerDo defaultChain ⟨l, ⟨1, 1, 0⟩, ""⟩ f = _
  rw [show lexerDo defaultChain ⟨l, ⟨1, 1, 0⟩, ""⟩ f
        = lexLoop defaultChain (l.length + 1) ⟨l, ⟨1, 1, 0⟩, f⟩ [] from by
      simp [lexerDo, hchain]]
  rw [show lexLoop defaultChain (l.length + 1) ⟨l, ⟨1, 1, 0⟩, f⟩ []
        = (if eofL ⟨l, ⟨1, 1, 0⟩, f⟩ then (.ok [], ⟨l, ⟨1, 1, 0⟩, f⟩)
           else
             match tokenizeChain defaultChain (skipWs (l.length + 1) ⟨l, ⟨1, 1, 0⟩, f⟩) with
             | (.error e, st2) => (.err e, st2)
             | (.ok o, st2) => lexLoop defaultChain l.length (skipWs (st2.bytes.length + 1) st2) ([] ++ [o])) from rfl]
  rw [hskip]
  simp only [heof0, Bool.false_eq_true, if_false]
  rw [htok]
  simp [lexMakeError]

/-- C10 witness. -/
theorem c10_witness :
    ("  \t\n ".data ≠ [] ∧ ∀ c ∈ "  \t\n ".data, goIsSpace c = true)
      ∧ ∃ li co : Int,
          lexerDo defaultChain ⟨"  \t\n ".data, ⟨1, 1, 0⟩, ""⟩ "w"
            = (.err (lexErrFmt "Unknown character" "w" li co),
               ⟨"  \t\n ".data, ⟨li, co, "  \t\n ".data.length⟩, "w"⟩) :=
  ⟨⟨by decide, by decide⟩,
   c10_whitespace_only_is_unknown_character "  \t\n ".data "w" (by decide) (by decide)⟩

theorem eofL_eq_false (st : LexSt) : eofL st = false ↔ st.p.pos < st.bytes.length := by
  simp [eofL, Nat.not_le]

theorem currentL_of_not_eof (st : LexSt) (h : eofL st = false) :
    currentL st = st.bytes.getD st.p.pos nul := by
  simp [currentL, h]

theorem getD_of_getElem? {l : List Char} {n : Nat} {c : Char} (h : l[n]? = some c) :
    l.getD n nul = c := by
  rw [List.getD_eq_getElem?_getD, h]
  rfl

theorem lt_length_of_getElem? {l : List Char} {n : Nat} {c : Char} (h : l[n]? = some c) :
    n < l.length := by
  by_contra hge
  rw [List.getElem?_eq_none_iff.mpr (Nat.le_of_not_lt hge)] at h
  exact Option.noConfusion h

/-- The scan loop of `Default.String` stops exactly at the first closing
quote located at least two bytes past the loop's entry position (the first
byte is advanced over unchecked). -/
theorem strScan_finds : ∀ (fuel : Nat) (s : LexSt) (j : Nat),
    s.p.pos < j →
    j - s.p.pos ≤ fuel →
    s.bytes[j]? = some '"' →
    (∀ k, s.p.pos < k → k < j → s.bytes[k]? ≠ some '"') →
    ∃ li co : Int, strScan fuel s = .ok ⟨s.bytes, ⟨li, co, j⟩, s.filename⟩ := by
  intro fuel
  induction fuel with
  | zero =>
    intro s j hj hfuel _ _
    omega
  | succ fuel ih =>
    intro s j hj hfuel hquote hmin
    have hjlen : j < s.bytes.length := lt_length_of_getElem? hquote
    have hslen : s.p.pos < s.bytes.length := by omega
    have heofs : eofL s = false := (eofL_eq_false s).mpr hslen
    have hb := advanceL_bytes s
    have hf := advanceL_filename s
    have hp := advanceL_pos_of_not_eof s (by simp [heofs])
    have heof1 : eofL (advanceL s) = false := by
      rw [eofL_eq_false, hb, hp]
      omega
    have hcur : currentL (advanceL s) = s.bytes.getD (s.p.pos + 1) nul := by
      rw [currentL_of_not_eof _ heof1, hb, hp]
    rw [show strScan (fuel + 1) s
          = (if eofL (advanceL s) then .error (advanceL s)
             else if currentL (advanceL s) = '"' then .ok (advanceL s)
             else strScan fuel (advanceL s)) from rfl]
    rw [if_neg (by simp [heof1])]
    by_cases hstep : s.p.pos + 1 = j
    · have hcq : currentL (advanceL s) = '"' := by
        rw [hcur, hstep]
        exact getD_of_getElem? hquote
      rw [if_pos hcq]
      refine ⟨(advanceL s).p.line, (advanceL s).p.column, ?_⟩
      have : advanceL s
          = ⟨(advanceL s).bytes,
             ⟨(advanceL s).p.line, (advanceL s).p.column, (advanceL s).p.pos⟩,
             (advanceL s).filename⟩ := rfl
      rw [this, hb, hf, hp, hstep]
    · have hlt1 : s.p.pos + 1 < j := by omega
      have hlt1len : s.p.pos + 1 < s.bytes.length := by omega
      obtain ⟨c, hc⟩ : ∃ c, s.bytes[s.p.pos + 1]? = some c := by
        rcases h : s.bytes[s.p.pos + 1]? with _ | c
        · rw [List.getElem?_eq_none_iff] at h
          omega
        · exact ⟨c, rfl⟩
      have hcne : c ≠ '"' := by
        intro hcq
        exact hmin (s.p.pos + 1) (by omega) hlt1 (by rw [hc, hcq])
      have hcurc : currentL (advanceL s) = c := by
        rw [hcur]
        exact getD_of_getElem? hc
      rw [if_neg (by rw [hcurc]; exact hcne)]
      obtain ⟨li, co, hrec⟩ := ih (advanceL s) j
        (by rw [hp]; omega)
        (by rw [hp]; omega)
        (by rw [hb]; exact hquote)
        (by
          intro k hk1 hk2
          rw [hb]
          rw [hp] at hk1
          exact hmin k (by omega) hk2)
      refine ⟨li, co, ?_⟩
      rw [hrec, hb, hf]

/-- With no closing quote at any reachable position the scan loop of
`Default.String` ends in the EOF error. -/
theorem strScan_none : ∀ (fuel : Nat) (s : LexSt),
    (∀ k, s.p.pos < k → k < s.bytes.length → s.bytes[k]? ≠ some '"') →
    ∃ stE, strScan fuel s = .error stE := by
  intro fuel
  induction fuel with
  | zero =>
    intro s _
    exact ⟨s, rfl⟩
  | succ fuel ih =>
    intro s hmin
    rw [show strScan (fuel + 1) s
          = (if eofL (advanceL s) then .error (advanceL s)
             else if currentL (advanceL s) = '"' then .ok (advanceL s)
             else strScan fuel (advanceL s)) from rfl]
    by_cases h1 : eofL (advanceL s) = true
    · rw [if_pos h1]
      exact ⟨advanceL s, rfl⟩
    · have h1f : eofL (advanceL s) = false := Bool.eq_false_iff.mpr h1
      rw [if_neg (by simp [h1f])]
      have hb := advanceL_bytes s
      have hf := advanceL_filename s
      have hslen : s.p.pos < s.bytes.length := by
        by_contra hge
        have : eofL s = true := by
          rw [eofL_iff]
          omega
        apply h1
        rw [show advanceL s = s from by unfold advanceL; simp [this]]
        exact this
      have hp := advanceL_pos_of_not_eof s
        (by simp [(eofL_eq_false s).mpr hslen])
      have hlt1len : s.p.pos + 1 < s.bytes.length := by
        have := (eofL_eq_false _).mp h1f
        rw [hb, hp] at this
        exact this
      have hcur : currentL (advanceL s) = s.bytes.getD (s.p.pos + 1) nul := by
        rw [currentL_of_not_eof _ h1f, hb, hp]
      obtain ⟨c, hc⟩ : ∃ c, s.bytes[s.p.pos + 1]? = some c := by
        rcases h : s.bytes[s.p.pos + 1]? with _ | c
        · rw [List.getElem?_eq_none_iff] at h
          omega
        · exact ⟨c, rfl⟩
      have hcne : c ≠ '"' := by
        intro hcq
        exact hmin (s.p.pos + 1) (by omega) hlt1len (by rw [hc, hcq])
      rw [if_neg (by rw [hcur, getD_of_getElem? hc]; exact hcne)]
      obtain ⟨stE, hrec⟩ := ih (advanceL s)
        (by
          intro k hk1 hk2
          rw [hb]
          rw [hp] at hk1
          rw [hb] at hk2
          exact hmin k (by omega) hk2)
      exact ⟨stE, hrec⟩

theorem sliceL_ok (st : LexSt) (start stop : Nat)
    (h1 : start ≤ stop) (h2 : stop ≤ st.bytes.length) :
    sliceL st start stop = .ok (String.mk ((st.bytes.drop start).take (stop - start))) := by
  unfold sliceL
  rw [if_neg (by omega), if_neg (by simp), if_neg (by omega)]

/-- C7 counterexample: for the input `""` — a closing quote follows the
opening quote immediately — the String tokenizer does *not* succeed with
an empty literal; it reports the unterminated-string error, because its
scan loop advances over the byte after the opening quote before ever
testing it. -/
theorem c7_counterexample :
    (tkString (initLex "\"\"")).fst
        = .err "String(): Found EOF when tokenizing string, expected closing \" (at :1:3)"
      ∧ ∀ o, (tkString (initLex "\"\"")).fst ≠ TokStep.tok o := by
  refine ⟨by decide, fun o h => ?_⟩
  rw [show (tkString (initLex "\"\"")).fst
        = .err "String(): Found EOF when tokenizing string, expected closing \" (at :1:3)"
      from by decide] at h
  exact TokStep.noConfusion h

/-- C7 amended: for an input whose current byte is `"`, the String
tokenizer succeeds exactly when some closing `"` sits at least two bytes
past the opening quote (the byte immediately after the opening quote is
consumed without being tested, so the empty literal is unreachable); the
literal is then the bytes strictly between the opening quote and that
first reachable closing quote, and the cursor ends just past it.  With no
reachable closing quote — in particular for the input `""` — it fails with
the unterminated-string error. -/
theorem c7_amended_string_tokenizer (st : LexSt) (hq : currentL st = '"') :
    (∀ j, st.bytes[j]? = some '"' → st.p.pos + 2 ≤ j →
        (∀ k, st.p.pos + 2 ≤ k → k < j → st.bytes[k]? ≠ some '"') →
        ∃ li co : Int,
          tkString st
            = (.tok (some ⟨String.mk ((st.bytes.drop (st.p.pos + 1)).take (j - (st.p.pos + 1))),
                kString, .shared⟩),
               ⟨st.bytes, ⟨li, co, j + 1⟩, st.filename⟩))
      ∧ ((∀ k, st.p.pos + 2 ≤ k → k < st.bytes.length → st.bytes[k]? ≠ some '"') →
          ∃ stE, tkString st
            = (.err (lexMakeError stE
                "String(): Found EOF when tokenizing string, expected closing \""), stE)) := by
  have hguard : ¬ (currentL st = nul ∨ currentL st ≠ '"') := by
    rw [hq]
    decide
  have hslen : st.p.pos < st.bytes.length := by
    by_contra hge
    have : eofL st = true := by
      rw [eofL_iff]
      omega
    rw [currentL_of_eofL st this] at hq
    exact absurd hq (by decide)
  have heofs : eofL st = false := (eofL_eq_false st).mpr hslen
  have hb := advanceL_bytes st
  have hf := advanceL_filename st
  have hp := advanceL_pos_of_not_eof st (by simp [heofs])
  constructor
  · intro j hj hge hmin
    have hjlen : j < st.bytes.length := lt_length_of_getElem? hj
    obtain ⟨li, co, hscan⟩ := strScan_finds (st.bytes.length + 1) (advanceL st) j
      (by rw [hp]; omega)
      (by rw [hp]; omega)
      (by rw [hb]; exact hj)
      (by
        intro k hk1 hk2
        rw [hb]
        rw [hp] at hk1
        exact hmin k (by omega) hk2)
    rw [hb, hf] at hscan
    simp only [tkString]
    rw [if_neg hguard, hscan]
    have heofj : eofL (⟨st.bytes, ⟨li, co, j⟩, st.filename⟩ : LexSt) = false := by
      rw [eofL_eq_false]
      exact hjlen
    have hb2 := advanceL_bytes (⟨st.bytes, ⟨li, co, j⟩, st.filename⟩ : LexSt)
    have hf2 := advanceL_filename (⟨st.bytes, ⟨li, co, j⟩, st.filename⟩ : LexSt)
    have hp2 := advanceL_pos_of_not_eof (⟨st.bytes, ⟨li, co, j⟩, st.filename⟩ : LexSt)
      (by simp [heofj])
    have hslice : sliceL (advanceL ⟨st.bytes, ⟨li, co, j⟩, st.filename⟩)
          ((advanceL st).p.pos) j
        = .ok (String.mk ((st.bytes.drop (st.p.pos + 1)).take (j - (st.p.pos + 1)))) := by
      rw [hp]
      have := sliceL_ok (advanceL ⟨st.bytes, ⟨li, co, j⟩, st.filename⟩) (st.p.pos + 1) j
        (by omega) (by rw [hb2]; exact Nat.le_of_lt hjlen)
      rw [this, hb2]
    dsimp only
    rw [hslice]
    dsimp only
    refine ⟨(advanceL ⟨st.bytes, ⟨li, co, j⟩, st.filename⟩).p.line,
            (advanceL ⟨st.bytes, ⟨li, co, j⟩, st.filename⟩).p.column, ?_⟩
    congr 1
    rw [show advanceL ⟨st.bytes, ⟨li, co, j⟩, st.filename⟩
          = (⟨(advanceL ⟨st.bytes, ⟨li, co, j⟩, st.filename⟩).bytes,
              ⟨(advanceL ⟨st.bytes, ⟨li, co, j⟩, st.filename⟩).p.line,
               (advanceL ⟨st.bytes, ⟨li, co, j⟩, st.filename⟩).p.column,
               (advanceL ⟨st.bytes, ⟨li, co, j⟩, st.filename⟩).p.pos⟩,
              (advanceL ⟨st.bytes, ⟨li, co, j⟩, st.filename⟩).filename⟩ : LexSt) from rfl,
        hb2, hf2, hp2]
  · intro hmin
    obtain ⟨stE, hscan⟩ := strScan_none (st.bytes.length + 1) (advanceL st)
      (by
        intro k hk1 hk2
        rw [hb] at hk2 ⊢
        rw [hp] at hk1
        exact hmin k (by omega) hk2)
    simp only [tkString]
    rw [if_neg hguard, hscan]
    exact ⟨stE, rfl⟩

/-- C7 witness: for the concrete input `"ab"` the success clause applies
with the closing quote at index 3, and for `""` the failure clause
applies. -/
theorem c7_witness :
    (currentL (initLex "\"ab\"") = '"'
      ∧ ∃ li co : Int,
          tkString (initLex "\"ab\"")
            = (.tok (some ⟨String.mk (("\"ab\"".data.drop 1).take 2), kString, .shared⟩),
               ⟨"\"ab\"".data, ⟨li, co, 4⟩, ""⟩))
      ∧ (currentL (initLex "\"\"") = '"'
        ∧ ∃ stE, tkString (initLex "\"\"")
            = (.err (lexMakeError stE
                "String(): Found EOF when tokenizing string, expected closing \""), stE)) :=
  ⟨⟨by decide,
    (c7_amended_string_tokenizer (initLex "\"ab\"") (by decide)).1 3 (by decide) (by decide)
      (by decide)⟩,
   ⟨by decide,
    (c7_amended_string_tokenizer (initLex "\"\"") (by decide)).2 (by decide)⟩⟩

/-- C8 witness. -/
theorem c8_witness :
    ((⟨[xTok], "f"⟩ : PCtx).tokens.get? 0 = some xTok
        ∧ expectLiteral ⟨[xTok], "f"⟩ 0 "x" = (.yes xTok, 1)
        ∧ expectKind ⟨[xTok], "f"⟩ 0 kIdentifier = (.yes xTok, 1))
      ∧ ((⟨[], "f"⟩ : PCtx).tokens.get? 0 = none
        ∧ expectLiteral ⟨[], "f"⟩ 0 "x" = (.oob, 0)) :=
  ⟨⟨rfl,
    ((c8_amended_expect_total_only_mid_stream ⟨[xTok], "f"⟩ 0 "x" kIdentifier).1 xTok rfl).1 rfl,
    ((c8_amended_expect_total_only_mid_stream ⟨[xTok], "f"⟩ 0 "x" kIdentifier).1 xTok rfl).2.2.1 rfl⟩,
   ⟨rfl,
    ((c8_amended_expect_total_only_mid_stream ⟨[], "f"⟩ 0 "x" kIdentifier).2 rfl).1⟩⟩

end Miniasm
